import Mathlib

/-!
Verification development for the crypto-price-tracker service.

This file gives a shallow embedding, in Lean 4, of the core of the
price-tracking service (`src/services/price_service.py`,
`src/models/currency.py`, `src/models/price.py`, `src/api/routes.py`)
and proves or refutes the frozen specification claims about it.

Modelling conventions:
- Prices are exact rationals (`ℚ`); timestamps are `Int` seconds.
- The database table `price_history` is a `List Row` in insertion order.
- The per-method `functools.lru_cache` caches are association lists held
  in the service state; `lru_cache` has no time-to-live, which the model
  reflects (the `maxsize=32` bound is not modelled: the key space in play
  is far below 32, and no claim concerns eviction).
- The external price source (`requests.get` against the CoinGecko simple
  price endpoint) is a parameter `src : String → String → Except String
  CoinGeckoResponse`: it receives the comma-joined identifier list and
  the quote currency and either fails (network error / non-2xx, i.e.
  `raise_for_status`, / JSON decode error) or returns the decoded JSON
  object, keyed first by external identifier and then by quote currency.
- Database faults are injected through explicit parameters: a write fault
  is the index of the first failing `INSERT`; queries are counted in the
  state so that "no storage query happened" is expressible.
-/

namespace CryptoTracker

/-- Association-list lookup (first binding wins), used for caches, JSON
objects and price mappings throughout the model. -/
def alookup {κ ν : Type} [DecidableEq κ] (k : κ) : List (κ × ν) → Option ν
  | [] => none
  | (k', v) :: rest => if k' = k then some v else alookup k rest

/-- One row of the `price_history` table (`src/db/schema.py`): pair,
price, timezone-aware timestamp (modelled as seconds). -/
structure Row where
  pair : String
  price : ℚ
  timestamp : Int
  deriving DecidableEq, Repr

/-- The `Price` response model (`src/models/price.py`). -/
structure Price where
  pair : String
  price : ℚ
  timestamp : Int
  deriving DecidableEq, Repr

deriving instance DecidableEq for Except

/-- The fixed catalog of supported trading pairs, in declaration order
(`PAIRS` in `src/models/currency.py`). -/
def PAIRS : List String :=
  ["btc/usd", "eth/usd", "sol/usd", "etc/eur", "dot/usd", "ada/usd",
   "eth/btc", "bnt/btc"]

/-- The `CoinGeckoId` enum of `src/models/currency.py` as a lookup table
from enum-member name (uppercase symbol) to CoinGecko identifier. -/
def coinGeckoTable : List (String × String) :=
  [("ADA", "cardano"), ("BNT", "bancor"), ("BTC", "bitcoin"),
   ("DOT", "polkadot"), ("ETC", "ethereum-classic"), ("ETH", "ethereum"),
   ("SOL", "solana")]

/-- ASCII uppercase of one character, the fragment of `str.upper()`
relevant to the catalog's ASCII symbols. -/
def upperChar (c : Char) : Char :=
  if 'a' ≤ c ∧ c ≤ 'z' then Char.ofNat (c.toNat - 32) else c

/-- ASCII uppercase of a string (`currency.upper()` on the ASCII domain
the catalog draws its symbols from). -/
def upper (s : String) : String :=
  String.mk (s.data.map upperChar)

/-- `CurrencyPair.get_coingecko_id` (`src/models/currency.py` lines
56-65): `CoinGeckoId[currency.upper()].value`, with the `KeyError` for an
unknown member turned into a `ValueError "Unsupported currency: ..."`. -/
def get_coingecko_id (currency : String) : Except String String :=
  match alookup (upper currency) coinGeckoTable with
  | some v => Except.ok v
  | none => Except.error ("Unsupported currency: " ++ currency)

/-- State of one `PriceService` instance together with its database.
`rows` is the `price_history` table in insertion order; `last_update` is
the `_last_update` attribute; `histCache` and `rankCache` are the
`lru_cache` tables of `get_price_history` (keyed by `(pair, hours)`) and
`get_volatility_rank` (keyed by `pair`); `dbQueries` counts SQL
statements sent to the database and `extCalls` counts outbound HTTP
requests, so that "no query / no external call happened" is a statement
about the state. -/
structure SvcState where
  rows : List Row
  last_update : Option Int
  histCache : List ((String × Int) × List Price)
  rankCache : List (String × Option Nat)
  dbQueries : Nat
  extCalls : Nat
  deriving Repr

/-- A fresh service over a given table, with both caches empty. -/
def mkState (rows : List Row) : SvcState :=
  { rows := rows, last_update := none, histCache := [], rankCache := [],
    dbQueries := 0, extCalls := 0 }

/-- Insert a row into a list sorted by descending timestamp. -/
def insertDesc (r : Row) : List Row → List Row
  | [] => [r]
  | x :: xs =>
      if r.timestamp > x.timestamp then r :: x :: xs
      else x :: insertDesc r xs

/-- Sort rows by timestamp, newest first (`ORDER BY timestamp DESC`). -/
def sortDesc (l : List Row) : List Row :=
  l.foldr insertDesc []

/-- The SQL of `get_price_history` (`price_service.py` lines 122-137):
select the rows of `pair` with `timestamp > :since` where
`since = now - hours`, newest first, and build `Price` objects. -/
def historyQuery (rows : List Row) (now : Int) (pair : String)
    (hours : Int) : List Price :=
  (sortDesc (rows.filter
      (fun r => r.pair == pair && now - hours * 3600 < r.timestamp))).map
    (fun r => { pair := r.pair, price := r.price, timestamp := r.timestamp })

/-- The trailing 24-hour window of the volatility query
(`WHERE timestamp >= NOW() - INTERVAL '24 HOURS'`,
`price_service.py` line 167). Note the inclusive bound. -/
def windowRows (rows : List Row) (now : Int) : List Row :=
  rows.filter (fun r => now - 86400 ≤ r.timestamp)

/-- The prices of one pair's rows within a row set (`GROUP BY pair`
applied to `price`). -/
def samplesOf (rows : List Row) (pair : String) : List ℚ :=
  (rows.filter (fun r => r.pair == pair)).map (fun r => r.price)

/-- The distinct pairs occurring in a row set (the groups of
`GROUP BY pair`). -/
def pairsOf (rows : List Row) : List String :=
  (rows.map (fun r => r.pair)).dedup

/-- Sample variance (square of PostgreSQL `STDDEV`, which is the sample
standard deviation): `Σ (x - mean)² / (n - 1)`. The ranking compares
standard deviations, and since `Real.sqrt` is strictly monotone on the
nonnegative rationals this variance carries exactly the same order. -/
def sampleVar (xs : List ℚ) : ℚ :=
  let n : ℚ := xs.length
  let mean := xs.sum / n
  ((xs.map (fun x => (x - mean) ^ 2)).sum) / (n - 1)

/-- The pairs kept by `HAVING COUNT(*) > 1` over the trailing window: at
least 2 samples in the last 24 hours. -/
def qualifying (rows : List Row) (now : Int) : List String :=
  (pairsOf (windowRows rows now)).filter
    (fun p => 1 < (samplesOf (windowRows rows now) p).length)

/-- Standard deviation of a pair's trailing-window prices, as the sample
variance (see `sampleVar`); used only through its order. -/
def stddevSq (rows : List Row) (now : Int) (pair : String) : ℚ :=
  sampleVar (samplesOf (windowRows rows now) pair)

/-- The SQL of `get_volatility_rank` (`price_service.py` lines 160-185):
rank the qualifying pairs by descending standard deviation with `RANK()`
semantics (rank = 1 + number of qualifying pairs with strictly larger
standard deviation; ties share a rank and leave gaps), then select the
requested pair's rank, `none` when it does not qualify. -/
def volatility_rank_query (rows : List Row) (now : Int) (pair : String) :
    Option Nat :=
  if (qualifying rows now).contains pair then
    some (1 + (qualifying rows now).countP
      (fun p2 => stddevSq rows now p2 > stddevSq rows now pair))
  else none

/-- `PriceService.get_price_history` (`price_service.py` lines 106-146)
with its `lru_cache`: a hit returns the cached list and leaves the state
untouched (the body never runs); a miss runs the body, which first
clears this method's entire cache (`self.get_price_history.cache_clear()`),
then queries the database once, and the wrapper finally records the
fresh result under its key. -/
def get_price_history (st : SvcState) (now : Int) (pair : String)
    (hours : Int) : List Price × SvcState :=
  match alookup (pair, hours) st.histCache with
  | some ps => (ps, st)
  | none =>
      let ps := historyQuery st.rows now pair hours
      (ps, { st with histCache := [((pair, hours), ps)],
                     dbQueries := st.dbQueries + 1 })

/-- `PriceService.get_volatility_rank` (`price_service.py` lines 148-191)
with its `lru_cache`: a hit returns the cached rank without touching the
database; a miss runs the ranking query once and caches the result. No
code path ever clears or expires this cache. -/
def get_volatility_rank (st : SvcState) (now : Int) (pair : String) :
    Option Nat × SvcState :=
  match alookup pair st.rankCache with
  | some r => (r, st)
  | none =>
      let r := volatility_rank_query st.rows now pair
      (r, { st with rankCache := (pair, r) :: st.rankCache,
                    dbQueries := st.dbQueries + 1 })

/-- `PriceService.store_prices` (`price_service.py` lines 79-105): set
`_last_update` to the shared capture timestamp, then insert one row per
pair of the batch inside one transaction and commit. A database fault is
injected as the index of the first failing `INSERT`; when it strikes
before the batch ends, the transaction is rolled back (the connection
closes without commit), nothing is appended, and the error is re-raised
— but `_last_update` keeps its new value. -/
def store_prices (st : SvcState) (now : Int)
    (prices : List (String × ℚ)) (fault : Option Nat) :
    Except String Unit × SvcState :=
  let st1 := { st with last_update := some now }
  let failed : Bool := match fault with
    | some i => decide (i < prices.length)
    | none => false
  if failed then
    (Except.error "Database error", { st1 with dbQueries := st1.dbQueries + 1 })
  else
    (Except.ok (),
     { st1 with
        rows := st1.rows ++ prices.map (fun pr => Row.mk pr.1 pr.2 now),
        dbQueries := st1.dbQueries + 1 })

/-- `base, quote = pair.split("/")` (`price_service.py` line 46). The
Python unpacking raises for a string without exactly one `/`; that case
is unreachable for catalog pairs and is mapped to a dummy value here. -/
def splitPair (s : String) : String × String :=
  match (List.splitOn '/' s.data).map (fun cs => String.mk cs) with
  | [b, q] => (b, q)
  | _ => ("", "")

/-- Append a base symbol to its quote currency's group, creating the
group at the end on first sight — the insertion-order semantics of the
`quote_groups` dict built in `fetch_prices` (lines 45-49). -/
def addGroup (acc : List (String × List String)) (q b : String) :
    List (String × List String) :=
  if acc.any (fun g => g.1 == q) then
    acc.map (fun g => if g.1 == q then (g.1, g.2 ++ [b]) else g)
  else acc ++ [(q, [b])]

/-- Partition a pair list by quote currency, preserving first-seen order
of quotes and in-group order of bases (`quote_groups` of
`fetch_prices`). -/
def quoteGroups (pairs : List String) : List (String × List String) :=
  pairs.foldl (fun acc pair =>
    let bq := splitPair pair
    addGroup acc bq.2 bq.1) []

/-- Decoded JSON of the CoinGecko simple-price endpoint: an object keyed
by external identifier whose values are objects keyed by quote currency. -/
def CoinGeckoResponse : Type := List (String × List (String × ℚ))

/-- `[CurrencyPair.get_coingecko_id(base) for base in bases]`
(`fetch_prices` line 53): resolve every base of a group, propagating the
first `ValueError`. -/
def groupIds : List String → Except String (List String)
  | [] => Except.ok []
  | b :: rest =>
      match get_coingecko_id b with
      | Except.error e => Except.error e
      | Except.ok i =>
          match groupIds rest with
          | Except.error e => Except.error e
          | Except.ok is => Except.ok (i :: is)

/-- The response-parsing loop of `fetch_prices` (lines 66-70): for each
base of the group, look up `data[get_coingecko_id(base)][quote]` and bind
it to the pair `f"{base}/{quote}"`; a missing key is a `KeyError`, which
the surrounding `except` re-raises. -/
def extractGroup (data : CoinGeckoResponse) (quote : String) :
    List String → Except String (List (String × ℚ))
  | [] => Except.ok []
  | b :: rest =>
      match get_coingecko_id b with
      | Except.error e => Except.error e
      | Except.ok cid =>
          match alookup cid data with
          | none => Except.error ("KeyError: " ++ cid)
          | some inner =>
              match alookup quote inner with
              | none => Except.error ("KeyError: " ++ quote)
              | some v =>
                  match extractGroup data quote rest with
                  | Except.error e => Except.error e
                  | Except.ok ps => Except.ok ((b ++ "/" ++ quote, v) :: ps)

/-- The per-group loop of `fetch_prices` (lines 51-71): for each quote
group in order, resolve the identifiers, issue one request to the
external source (`requests.get` with `ids` comma-joined and
`vs_currencies` the quote), parse the response, and merge the group's
prices into the accumulated mapping. The first failure of any kind
aborts the whole loop and is re-raised (lines 73-75). The second
component is the list of `(ids, vs_currencies)` requests actually
issued. -/
def fetchGroups (src : String → String → Except String CoinGeckoResponse) :
    List (String × List String) →
    Except String (List (String × ℚ)) × List (String × String)
  | [] => (Except.ok [], [])
  | (q, bases) :: rest =>
      match groupIds bases with
      | Except.error e => (Except.error e, [])
      | Except.ok ids =>
          let req := (String.intercalate "," ids, q)
          match src req.1 req.2 with
          | Except.error e => (Except.error e, [req])
          | Except.ok data =>
              match extractGroup data q bases with
              | Except.error e => (Except.error e, [req])
              | Except.ok ps =>
                  match fetchGroups src rest with
                  | (Except.ok pm, log) => (Except.ok (ps ++ pm), req :: log)
                  | (Except.error e, log) => (Except.error e, req :: log)

/-- `PriceService.fetch_prices` (`price_service.py` lines 35-77): group
the catalog by quote currency and run the per-group fetch loop; the
state records one external call per request issued. No database access
occurs. -/
def fetch_prices (st : SvcState)
    (src : String → String → Except String CoinGeckoResponse) :
    Except String (List (String × ℚ)) × SvcState :=
  let rl := fetchGroups src (quoteGroups PAIRS)
  (rl.1, { st with extCalls := st.extCalls + rl.2.length })

/-- The composed fetch-and-store cycle (`fetch_and_store_prices` in
`src/ui/streamlit_app.py`): fetch all prices, then store them; any
exception from either step is caught and an empty mapping returned, so a
failed fetch never reaches `store_prices`. -/
def fetch_and_store (st : SvcState)
    (src : String → String → Except String CoinGeckoResponse)
    (now : Int) (fault : Option Nat) : List (String × ℚ) × SvcState :=
  match fetch_prices st src with
  | (Except.ok prices, st1) =>
      let rs := store_prices st1 now prices fault
      match rs.1 with
      | Except.ok _ => (prices, rs.2)
      | Except.error _ => ([], rs.2)
  | (Except.error _, st1) => ([], st1)

/-- The three requests `fetch_prices` sends for the fixed catalog: one
per distinct quote currency, with the comma-joined external identifiers
of every base in the group. -/
def fetchRequests : List (String × String) :=
  [("bitcoin,ethereum,solana,polkadot,cardano", "usd"),
   ("ethereum-classic", "eur"), ("ethereum,bancor", "btc")]

/-- `GET /api/prices/{base}/{quote}/current` (`src/api/routes.py` lines
15-31): reject pairs outside the catalog with 404 before doing anything
else; otherwise fetch all current prices and answer with the requested
pair's price (the handler's response-model construction is elided; an
exception escaping the handler surfaces as a 500). -/
def route_get_current_price (st : SvcState)
    (src : String → String → Except String CoinGeckoResponse)
    (base quote : String) : Except Nat (String × ℚ) × SvcState :=
  let pair := base ++ "/" ++ quote
  if PAIRS.contains pair then
    match fetch_prices st src with
    | (Except.ok prices, st1) =>
        match alookup pair prices with
        | some v => (Except.ok (pair, v), st1)
        | none => (Except.error 500, st1)
    | (Except.error _, st1) => (Except.error 500, st1)
  else (Except.error 404, st)

/-- `GET /api/prices/{base}/{quote}/history` (`src/api/routes.py` lines
34-51): reject pairs outside the catalog with 404 before doing anything
else; otherwise read the 24-hour history and the volatility rank through
the service. -/
def route_get_price_history (st : SvcState) (now : Int)
    (base quote : String) :
    Except Nat (String × List Price × Option Nat) × SvcState :=
  let pair := base ++ "/" ++ quote
  if PAIRS.contains pair then
    let ps := get_price_history st now pair 24
    let rk := get_volatility_rank ps.2 now pair
    (Except.ok (pair, ps.1, rk.1), rk.2)
  else (Except.error 404, st)

end CryptoTracker

namespace CryptoTracker

/-- C7: `get_coingecko_id` is a pure function (as every Lean function is)
that returns the mapped external identifier for every symbol whose
uppercase form is in the `CoinGeckoId` mapping, and fails with an
"unsupported currency" error for every symbol outside the mapping. -/
theorem get_coingecko_id_spec (s v : String) :
    (alookup (upper s) coinGeckoTable = some v →
      get_coingecko_id s = Except.ok v) ∧
    (alookup (upper s) coinGeckoTable = none →
      get_coingecko_id s = Except.error ("Unsupported currency: " ++ s)) := by
  constructor
  · intro h
    simp [get_coingecko_id, h]
  · intro h
    simp [get_coingecko_id, h]

/-- Witness for C7: `"btc"` maps to `"bitcoin"`, `"xyz"` is rejected. -/
theorem get_coingecko_id_spec_witness :
    get_coingecko_id "btc" = Except.ok "bitcoin" ∧
    get_coingecko_id "xyz" =
      Except.error ("Unsupported currency: " ++ "xyz") :=
  ⟨(get_coingecko_id_spec "btc" "bitcoin").1 (by decide),
   (get_coingecko_id_spec "xyz" "bitcoin").2 (by decide)⟩

/-- C10: the two window bounds are asymmetric at the boundary. A sample
whose timestamp is exactly `now - hours` (in seconds) is excluded from
`get_price_history`'s result, because the SQL uses a strict
`timestamp > :since`; a sample exactly 24 hours old satisfies the
volatility query's `timestamp >= NOW() - INTERVAL '24 HOURS'` and is
kept in its trailing window. -/
theorem window_bounds_asymmetric (now hours : Int) (p : String) (v : ℚ) :
    (get_price_history (mkState [⟨p, v, now - hours * 3600⟩]) now p hours).1
      = [] ∧
    windowRows [⟨p, v, now - 86400⟩] now = [⟨p, v, now - 86400⟩] := by
  constructor
  · simp [get_price_history, mkState, alookup, historyQuery, sortDesc,
      List.filter]
  · simp [windowRows, List.filter]

/-- C9: `store_prices` assigns `self._last_update = timestamp` before the
insert loop runs, so when the batch insert fails with a database error
the error is re-raised and no rows are stored, yet `_last_update` has
already been moved to the new batch timestamp. -/
theorem store_db_error_still_updates_timestamp
    (st : SvcState) (now : Int) (prices : List (String × ℚ)) (i : Nat)
    (h : i < prices.length) :
    (store_prices st now prices (some i)).1 =
      Except.error "Database error" ∧
    (store_prices st now prices (some i)).2.rows = st.rows ∧
    (store_prices st now prices (some i)).2.last_update = some now := by
  simp [store_prices, h]

/-- Witness for C9: a one-sample batch whose insert fails still moves
`_last_update` to the batch timestamp while storing nothing. -/
theorem store_db_error_still_updates_timestamp_witness :
    (store_prices (mkState []) 5 [("btc/usd", 50000)] (some 0)).2.rows
      = [] ∧
    (store_prices (mkState []) 5 [("btc/usd", 50000)] (some 0)).2.last_update
      = some 5 :=
  ⟨(store_db_error_still_updates_timestamp (mkState []) 5
      [("btc/usd", 50000)] 0 (by decide)).2.1,
   (store_db_error_still_updates_timestamp (mkState []) 5
      [("btc/usd", 50000)] 0 (by decide)).2.2⟩

/-- Rows built from batch entries whose pair is absent from the batch's
key set contribute nothing to a per-pair filter. -/
lemma batch_rows_filter_nil (prices : List (String × ℚ)) (now : Int)
    (p : String) (h : p ∉ prices.map Prod.fst) :
    ((prices.map fun pr => Row.mk pr.1 pr.2 now).filter
      fun r => r.pair == p) = [] := by
  induction prices with
  | nil => rfl
  | cons x xs ih =>
      rw [List.map_cons, List.mem_cons, not_or] at h
      have hbeq : (x.1 == p) = false :=
        beq_eq_false_iff_ne.mpr (fun hx => h.1 hx.symm)
      rw [List.map_cons, List.filter_cons]
      simp only [hbeq, Bool.false_eq_true, if_false]
      exact ih h.2

/-- With duplicate-free batch keys (the Python batch is a dict), the
per-pair filter over the batch rows keeps exactly one row. -/
lemma batch_rows_filter_one (prices : List (String × ℚ)) (now : Int)
    (p : String) (hN : (prices.map Prod.fst).Nodup)
    (hp : p ∈ prices.map Prod.fst) :
    ((prices.map fun pr => Row.mk pr.1 pr.2 now).filter
      fun r => r.pair == p).length = 1 := by
  induction prices with
  | nil => simp at hp
  | cons x xs ih =>
      rw [List.map_cons, List.nodup_cons] at hN
      rw [List.map_cons, List.mem_cons] at hp
      rw [List.map_cons, List.filter_cons]
      by_cases hx : x.1 = p
      · have hbeq : (x.1 == p) = true := beq_iff_eq.mpr hx
        simp only [hbeq, if_true, List.length_cons]
        rw [batch_rows_filter_nil xs now p (hx ▸ hN.1)]
        rfl
      · have hbeq : (x.1 == p) = false := beq_eq_false_iff_ne.mpr hx
        simp only [hbeq, Bool.false_eq_true, if_false]
        exact ih hN.2 (hp.resolve_left (fun hpe => hx hpe.symm))

/-- C4: `store_prices` stamps the whole batch with one shared capture
timestamp and inserts exactly one row per pair in one transaction. A
mid-batch database error rolls the whole batch back (the rows are
unchanged), re-raises the error, and leaves no partial batch visible;
on success the batch is appended atomically, every inserted row carrying
the shared timestamp and each batch pair appearing exactly once. -/
theorem store_prices_batch_spec
    (st : SvcState) (now : Int) (prices : List (String × ℚ)) (i : Nat)
    (hN : (prices.map Prod.fst).Nodup) :
    (i < prices.length →
      store_prices st now prices (some i) =
        (Except.error "Database error",
         { st with last_update := some now,
                   dbQueries := st.dbQueries + 1 })) ∧
    store_prices st now prices none =
      (Except.ok (),
       { st with last_update := some now,
                 rows := st.rows ++ prices.map fun pr => Row.mk pr.1 pr.2 now,
                 dbQueries := st.dbQueries + 1 }) ∧
    (∀ r ∈ prices.map fun pr => Row.mk pr.1 pr.2 now, r.timestamp = now) ∧
    (∀ p ∈ prices.map Prod.fst,
      ((prices.map fun pr => Row.mk pr.1 pr.2 now).filter
        fun r => r.pair == p).length = 1) := by
  refine ⟨fun h => ?_, ?_, ?_, ?_⟩
  · simp [store_prices, h]
  · simp [store_prices]
  · intro r hr
    rcases List.mem_map.mp hr with ⟨pr, _, rfl⟩
    rfl
  · intro p hp
    exact batch_rows_filter_one prices now p hN hp

/-- Witness for C4: a two-pair batch fails atomically at index 1 with
`_last_update` moved but no rows; each pair of the batch yields exactly
one row on success. -/
theorem store_prices_batch_spec_witness :
    store_prices (mkState []) 7 [("btc/usd", 50000), ("eth/usd", 2000)]
        (some 1) =
      (Except.error "Database error",
       { mkState [] with last_update := some 7, dbQueries := 1 }) ∧
    (([(("btc/usd" : String), (50000 : ℚ)), ("eth/usd", 2000)].map
        fun pr => Row.mk pr.1 pr.2 7).filter
      fun r => r.pair == "btc/usd").length = 1 :=
  ⟨(store_prices_batch_spec (mkState []) 7
      [("btc/usd", 50000), ("eth/usd", 2000)] 1 (by decide)).1 (by decide),
   (store_prices_batch_spec (mkState []) 7
      [("btc/usd", 50000), ("eth/usd", 2000)] 1 (by decide)).2.2.2
     "btc/usd" (by decide)⟩

/-- C1: counterexample. The claim asserts a 90-second TTL for the cached
operations, after whose expiry "the next call with those arguments
recomputes and refreshes the cached value". The service-level caches are
plain `functools.lru_cache` with no time-to-live at all: here the second
call with identical arguments comes 1000000 seconds (far beyond any
90-second window) after the first, yet it returns the stale cached list,
issues no new storage query (`dbQueries` stays at 1), and does not
refresh the value — a genuine recomputation at that time would return
`[]`, the lone sample having left the window. The same holds for
`get_volatility_rank`. -/
theorem cache_ttl_counterexample :
    (get_price_history
        (get_price_history (mkState [⟨"btc/usd", 50000, 0⟩])
          0 "btc/usd" 24).2 1000000 "btc/usd" 24).1 =
      (get_price_history (mkState [⟨"btc/usd", 50000, 0⟩])
          0 "btc/usd" 24).1 ∧
    (get_price_history (mkState [⟨"btc/usd", 50000, 0⟩])
        0 "btc/usd" 24).1 = [⟨"btc/usd", 50000, 0⟩] ∧
    (get_price_history
        (get_price_history (mkState [⟨"btc/usd", 50000, 0⟩])
          0 "btc/usd" 24).2 1000000 "btc/usd" 24).2.dbQueries = 1 ∧
    historyQuery [⟨"btc/usd", 50000, 0⟩] 1000000 "btc/usd" 24 = [] ∧
    (get_volatility_rank
        (get_volatility_rank (mkState [⟨"btc/usd", 50000, 0⟩])
          0 "btc/usd").2 1000000 "btc/usd").2.dbQueries = 1 := by
  decide

/-- C1 (amended): repeated calls to the cached operations with the same
arguments return the previously computed result without re-querying
storage — and this holds for an arbitrarily late second call, because
the `lru_cache` wrappers have no TTL: no expiry-triggered recomputation
or refresh ever happens. The whole second call is the identity on the
state (cache, row set, and query counter included). -/
theorem cached_ops_have_no_expiry
    (st : SvcState) (t1 t2 : Int) (pair : String) (hours : Int) :
    get_price_history (get_price_history st t1 pair hours).2 t2 pair hours =
      ((get_price_history st t1 pair hours).1,
       (get_price_history st t1 pair hours).2) ∧
    get_volatility_rank (get_volatility_rank st t1 pair).2 t2 pair =
      ((get_volatility_rank st t1 pair).1,
       (get_volatility_rank st t1 pair).2) := by
  constructor
  · cases h : alookup (pair, hours) st.histCache with
    | none => simp [get_price_history, h, alookup]
    | some ps => simp [get_price_history, h]
  · cases h : alookup pair st.rankCache with
    | none => simp [get_volatility_rank, h, alookup]
    | some r => simp [get_volatility_rank, h]

/-- When a batch's shared timestamp lies inside the lookback window, the
history filter over the batch's rows keeps exactly the batch entries for
the requested pair. -/
lemma history_filter_batch (bs : List (String × ℚ)) (t since : Int)
    (p : String) (hcond : since < t) :
    ((bs.map fun pr => Row.mk pr.1 pr.2 t).filter
      fun r => r.pair == p && since < r.timestamp) =
    ((bs.filter fun x => x.1 == p).map fun pr => Row.mk pr.1 pr.2 t) := by
  induction bs with
  | nil => rfl
  | cons x xs ih =>
      rw [List.map_cons, List.filter_cons, List.filter_cons]
      simp only [decide_eq_true hcond, Bool.and_true]
      cases hbeq : (x.1 == p) with
      | true => simp only [hbeq, if_true, List.map_cons, ih]
      | false => simp only [hbeq, Bool.false_eq_true, if_false, ih]

/-- Rows of pairs other than the requested one are dropped by the
history filter. -/
lemma history_filter_other_rows (rows : List Row) (since : Int)
    (p : String) (h0 : ∀ r ∈ rows, r.pair ≠ p) :
    (rows.filter fun r => r.pair == p && since < r.timestamp) = [] := by
  induction rows with
  | nil => rfl
  | cons x xs ih =>
      rw [List.filter_cons]
      have hbeq : (x.pair == p) = false :=
        beq_eq_false_iff_ne.mpr (h0 x (List.mem_cons_self x xs))
      simp only [hbeq, Bool.false_and, Bool.false_eq_true, if_false]
      exact ih (fun r hr => h0 r (List.mem_cons_of_mem x hr))

/-- C5: storing two batches through `store_prices` (the second strictly
later) and then reading the pair's history on a cache miss with a window
that reaches back past the first batch returns exactly the stored
samples for that pair, newest first, with prices preserved exactly. A
batch may contain other pairs; the starting table holds no rows of the
requested pair and the history cache holds no entry for the queried
arguments (the lru caches are never invalidated by writes, so a
pre-existing entry would be served stale — that behaviour is covered by
the claim about caching). -/
theorem store_then_history_roundtrip
    (st : SvcState) (p : String) (v1 v2 : ℚ) (b1 b2 : List (String × ℚ))
    (t1 t2 now hours : Int)
    (h0 : ∀ r ∈ st.rows, r.pair ≠ p)
    (hc : alookup (p, hours) st.histCache = none)
    (hb1 : (b1.filter fun x => x.1 == p) = [(p, v1)])
    (hb2 : (b2.filter fun x => x.1 == p) = [(p, v2)])
    (ht : t1 < t2) (hw : now - hours * 3600 < t1) :
    (get_price_history
        (store_prices (store_prices st t1 b1 none).2 t2 b2 none).2
        now p hours).1 =
      [⟨p, v2, t2⟩, ⟨p, v1, t1⟩] := by
  have hw2 : now - hours * 3600 < t2 := lt_trans hw ht
  have hcache :
      ((store_prices (store_prices st t1 b1 none).2 t2 b2 none).2).histCache
        = st.histCache := by
    simp [store_prices]
  have hrows :
      ((store_prices (store_prices st t1 b1 none).2 t2 b2 none).2).rows =
        st.rows ++ ((b1.map fun pr => Row.mk pr.1 pr.2 t1) ++
          (b2.map fun pr => Row.mk pr.1 pr.2 t2)) := by
    simp [store_prices]
  rw [get_price_history, hcache, hc]
  simp only [historyQuery, hrows, List.filter_append]
  rw [history_filter_other_rows st.rows (now - hours * 3600) p h0,
    history_filter_batch b1 t1 (now - hours * 3600) p hw,
    history_filter_batch b2 t2 (now - hours * 3600) p hw2, hb1, hb2]
  simp only [List.nil_append, List.map_cons, List.map_nil,
    List.singleton_append, sortDesc, List.foldr]
  rw [insertDesc, insertDesc, insertDesc, if_neg (lt_asymm ht)]
  rfl

/-- Witness for C5: the spec's concrete scenario — store
`{"btc/usd": 50000}` at `t = 0` and `{"btc/usd": 51000}` one second
later, read the 24-hour history at `t = 1`, and receive prices
`[51000, 50000]` newest first. -/
theorem store_then_history_roundtrip_witness :
    (get_price_history
        (store_prices
          (store_prices (mkState []) 0 [("btc/usd", 50000)] none).2
          1 [("btc/usd", 51000)] none).2
        1 "btc/usd" 24).1 =
      [⟨"btc/usd", 51000, 1⟩, ⟨"btc/usd", 50000, 0⟩] :=
  store_then_history_roundtrip (mkState []) "btc/usd" 50000 51000
    [("btc/usd", 50000)] [("btc/usd", 51000)] 0 1 1 24
    (by decide) (by decide) (by decide) (by decide) (by decide) (by decide)

/-- C8: both route handlers check membership of `"{base}/{quote}"` in the
catalog before touching anything else, so a pair outside the catalog
yields a 404 and the returned state is exactly the input state: no
database query and no external fetch is issued. -/
theorem routes_unknown_pair_404
    (st : SvcState)
    (src : String → String → Except String CoinGeckoResponse)
    (now : Int) (base quote : String)
    (h : ¬ PAIRS.contains (base ++ "/" ++ quote)) :
    route_get_current_price st src base quote = (Except.error 404, st) ∧
    route_get_price_history st now base quote = (Except.error 404, st) := by
  have h' : base ++ "/" ++ quote ∉ PAIRS := by simpa using h
  constructor
  · simp [route_get_current_price, h']
  · simp [route_get_price_history, h']

/-- When the whole per-group loop succeeds, the external source must
have answered successfully for every group whose identifier resolution
succeeds — the contrapositive of "one failing request aborts the loop". -/
lemma fetchGroups_ok_src
    (src : String → String → Except String CoinGeckoResponse) :
    ∀ (gs : List (String × List String)) (m : List (String × ℚ))
      (log : List (String × String)),
    fetchGroups src gs = (Except.ok m, log) →
    ∀ g ∈ gs, ∀ ids, groupIds g.2 = Except.ok ids →
    ∃ d, src (String.intercalate "," ids) g.1 = Except.ok d := by
  intro gs
  induction gs with
  | nil =>
      intro m log _ g hg
      simp at hg
  | cons g0 rest ih =>
      intro m log h g hg ids hids
      obtain ⟨q0, bases0⟩ := g0
      cases hgi : groupIds bases0 with
      | error e => simp [fetchGroups, hgi] at h
      | ok ids0 =>
          cases hs : src (String.intercalate "," ids0) q0 with
          | error e => simp [fetchGroups, hgi, hs] at h
          | ok data =>
              cases he : extractGroup data q0 bases0 with
              | error e => simp [fetchGroups, hgi, hs, he] at h
              | ok ps =>
                  cases hr : fetchGroups src rest with
                  | mk res' log' =>
                      cases res' with
                      | error e =>
                          simp [fetchGroups, hgi, hs, he, hr] at h
                      | ok pm =>
                          rcases List.mem_cons.mp hg with rfl | hg'
                          · rw [hgi] at hids
                            cases hids
                            exact ⟨data, hs⟩
                          · exact ih pm log' hr g hg' ids hids

/-- When the per-base extraction of one group succeeds, the produced
group mapping contains a price for every base of the group. -/
lemma extractGroup_ok_mem (data : CoinGeckoResponse) (q : String) :
    ∀ (bases : List String) (ps : List (String × ℚ)),
    extractGroup data q bases = Except.ok ps →
    ∀ b ∈ bases, ∃ v, (b ++ "/" ++ q, v) ∈ ps := by
  intro bases
  induction bases with
  | nil =>
      intro ps _ b hb
      simp at hb
  | cons b0 rest ih =>
      intro ps h b hb
      cases hid : get_coingecko_id b0 with
      | error e => simp [extractGroup, hid] at h
      | ok cid =>
          cases hin : alookup cid data with
          | none => simp [extractGroup, hid, hin] at h
          | some inner =>
              cases hv : alookup q inner with
              | none => simp [extractGroup, hid, hin, hv] at h
              | some v =>
                  cases hrest : extractGroup data q rest with
                  | error e =>
                      simp [extractGroup, hid, hin, hv, hrest] at h
                  | ok ps' =>
                      simp only [extractGroup, hid, hin, hv, hrest,
                        Except.ok.injEq] at h
                      subst h
                      rcases List.mem_cons.mp hb with rfl | hb'
                      · exact ⟨v, List.mem_cons_self _ _⟩
                      · rcases ih ps' hrest b hb' with ⟨v', hv'⟩
                        exact ⟨v', List.mem_cons_of_mem _ hv'⟩

/-- The catalog's quote groups, computed. -/
lemma quoteGroups_PAIRS :
    quoteGroups PAIRS =
      [("usd", ["btc", "eth", "sol", "dot", "ada"]), ("eur", ["etc"]),
       ("btc", ["eth", "bnt"])] := by
  decide

/-- C3: if the external request for any of the catalog's quote groups
fails, the entire fetch aborts: `fetch_prices` raises an error rather
than returning any partial mapping, and the composed fetch-and-store
cycle stores nothing — the price table is exactly as before and no
price mapping is produced. -/
theorem fetch_group_failure_aborts
    (st : SvcState)
    (src : String → String → Except String CoinGeckoResponse)
    (now : Int) (fault : Option Nat) (ids q e : String)
    (hmem : (ids, q) ∈ fetchRequests)
    (hfail : src ids q = Except.error e) :
    (∃ e', (fetch_prices st src).1 = Except.error e') ∧
    (fetch_and_store st src now fault).1 = [] ∧
    (fetch_and_store st src now fault).2.rows = st.rows := by
  have habort : ∀ m : List (String × ℚ),
      (fetchGroups src (quoteGroups PAIRS)).1 ≠ Except.ok m := by
    intro m hok
    cases hfg : fetchGroups src (quoteGroups PAIRS) with
    | mk res log =>
        rw [hfg] at hok
        simp only at hok
        subst hok
        have hall := fetchGroups_ok_src src (quoteGroups PAIRS) m log hfg
        simp only [fetchRequests, List.mem_cons, List.not_mem_nil,
          or_false, Prod.mk.injEq] at hmem
        rcases hmem with ⟨rfl, rfl⟩ | ⟨rfl, rfl⟩ | ⟨rfl, rfl⟩
        · rcases hall ("usd", ["btc", "eth", "sol", "dot", "ada"])
            (by rw [quoteGroups_PAIRS]; decide)
            ["bitcoin", "ethereum", "solana", "polkadot", "cardano"]
            (by decide) with ⟨d, hd⟩
          rw [show String.intercalate ","
              ["bitcoin", "ethereum", "solana", "polkadot", "cardano"] =
              "bitcoin,ethereum,solana,polkadot,cardano" from by decide,
            hfail] at hd
          cases hd
        · rcases hall ("eur", ["etc"])
            (by rw [quoteGroups_PAIRS]; decide)
            ["ethereum-classic"] (by decide) with ⟨d, hd⟩
          rw [show String.intercalate "," ["ethereum-classic"] =
              "ethereum-classic" from by decide, hfail] at hd
          cases hd
        · rcases hall ("btc", ["eth", "bnt"])
            (by rw [quoteGroups_PAIRS]; decide)
            ["ethereum", "bancor"] (by decide) with ⟨d, hd⟩
          rw [show String.intercalate "," ["ethereum", "bancor"] =
              "ethereum,bancor" from by decide, hfail] at hd
          cases hd
  have hfp : ∃ e', (fetch_prices st src).1 = Except.error e' := by
    cases hres : (fetch_prices st src).1 with
    | error e' => exact ⟨e', rfl⟩
    | ok m =>
        exact absurd (by simpa [fetch_prices] using hres) (habort m)
  refine ⟨hfp, ?_, ?_⟩ <;>
  · rcases hfp with ⟨e', he'⟩
    cases hfpp : fetch_prices st src with
    | mk r st1 =>
        rw [hfpp] at he'
        simp only at he'
        subst he'
        have hrows : st1.rows = st.rows := by
          have : (fetch_prices st src).2.rows = st.rows := rfl
          rw [hfpp] at this
          exact this
        simp [fetch_and_store, hfpp, hrows]

/-- C6: `fetch_prices` partitions the catalog's pairs by quote currency
(usd, eur, btc groups in first-seen order) and, whenever it succeeds,
has issued exactly one external request per distinct quote currency,
each carrying the comma-joined external identifiers of every base in
that group — and the returned mapping contains a price for every
catalog pair. -/
theorem fetch_prices_partition_and_coverage
    (src : String → String → Except String CoinGeckoResponse)
    (m : List (String × ℚ))
    (h : (fetchGroups src (quoteGroups PAIRS)).1 = Except.ok m) :
    quoteGroups PAIRS =
      [("usd", ["btc", "eth", "sol", "dot", "ada"]), ("eur", ["etc"]),
       ("btc", ["eth", "bnt"])] ∧
    (fetchGroups src (quoteGroups PAIRS)).2 = fetchRequests ∧
    ∀ p ∈ PAIRS, ∃ v, (p, v) ∈ m := by
  have hg1 : groupIds ["btc", "eth", "sol", "dot", "ada"] =
      Except.ok ["bitcoin", "ethereum", "solana", "polkadot", "cardano"] := by
    decide
  have hg2 : groupIds ["etc"] = Except.ok ["ethereum-classic"] := by decide
  have hg3 : groupIds ["eth", "bnt"] = Except.ok ["ethereum", "bancor"] := by
    decide
  rw [quoteGroups_PAIRS] at h ⊢
  cases hs1 : src (String.intercalate ","
      ["bitcoin", "ethereum", "solana", "polkadot", "cardano"]) "usd" with
  | error e => simp [fetchGroups, hg1, hs1] at h
  | ok d1 =>
  cases he1 : extractGroup d1 "usd" ["btc", "eth", "sol", "dot", "ada"] with
  | error e => simp [fetchGroups, hg1, hs1, he1] at h
  | ok ps1 =>
  cases hs2 : src (String.intercalate "," ["ethereum-classic"]) "eur" with
  | error e => simp [fetchGroups, hg1, hs1, he1, hg2, hs2] at h
  | ok d2 =>
  cases he2 : extractGroup d2 "eur" ["etc"] with
  | error e => simp [fetchGroups, hg1, hs1, he1, hg2, hs2, he2] at h
  | ok ps2 =>
  cases hs3 : src (String.intercalate "," ["ethereum", "bancor"]) "btc" with
  | error e => simp [fetchGroups, hg1, hs1, he1, hg2, hs2, he2, hg3, hs3] at h
  | ok d3 =>
  cases he3 : extractGroup d3 "btc" ["eth", "bnt"] with
  | error e =>
      simp [fetchGroups, hg1, hs1, he1, hg2, hs2, he2, hg3, hs3, he3] at h
  | ok ps3 =>
  have hfg : fetchGroups src
      [("usd", ["btc", "eth", "sol", "dot", "ada"]), ("eur", ["etc"]),
       ("btc", ["eth", "bnt"])] =
      (Except.ok (ps1 ++ (ps2 ++ (ps3 ++ []))),
       (String.intercalate ","
          ["bitcoin", "ethereum", "solana", "polkadot", "cardano"], "usd") ::
       (String.intercalate "," ["ethereum-classic"], "eur") ::
       (String.intercalate "," ["ethereum", "bancor"], "btc") :: []) := by
    simp [fetchGroups, hg1, hs1, he1, hg2, hs2, he2, hg3, hs3, he3]
  rw [hfg] at h
  simp only [Except.ok.injEq] at h
  subst h
  refine ⟨rfl, ?_, ?_⟩
  · rw [hfg]
    rfl
  · intro p hp
    fin_cases hp
    · rcases extractGroup_ok_mem d1 "usd" _ ps1 he1 "btc" (by decide) with
        ⟨v, hv⟩
      exact ⟨v, List.mem_append_left _
        (by rwa [show "btc" ++ "/" ++ "usd" = "btc/usd" from by decide] at hv)⟩
    · rcases extractGroup_ok_mem d1 "usd" _ ps1 he1 "eth" (by decide) with
        ⟨v, hv⟩
      exact ⟨v, List.mem_append_left _
        (by rwa [show "eth" ++ "/" ++ "usd" = "eth/usd" from by decide] at hv)⟩
    · rcases extractGroup_ok_mem d1 "usd" _ ps1 he1 "sol" (by decide) with
        ⟨v, hv⟩
      exact ⟨v, List.mem_append_left _
        (by rwa [show "sol" ++ "/" ++ "usd" = "sol/usd" from by decide] at hv)⟩
    · rcases extractGroup_ok_mem d2 "eur" _ ps2 he2 "etc" (by decide) with
        ⟨v, hv⟩
      exact ⟨v, List.mem_append_right _ (List.mem_append_left _
        (by rwa [show "etc" ++ "/" ++ "eur" = "etc/eur" from by decide] at hv))⟩
    · rcases extractGroup_ok_mem d1 "usd" _ ps1 he1 "dot" (by decide) with
        ⟨v, hv⟩
      exact ⟨v, List.mem_append_left _
        (by rwa [show "dot" ++ "/" ++ "usd" = "dot/usd" from by decide] at hv)⟩
    · rcases extractGroup_ok_mem d1 "usd" _ ps1 he1 "ada" (by decide) with
        ⟨v, hv⟩
      exact ⟨v, List.mem_append_left _
        (by rwa [show "ada" ++ "/" ++ "usd" = "ada/usd" from by decide] at hv)⟩
    · rcases extractGroup_ok_mem d3 "btc" _ ps3 he3 "eth" (by decide) with
        ⟨v, hv⟩
      exact ⟨v, List.mem_append_right _ (List.mem_append_right _
        (List.mem_append_left _
          (by rwa [show "eth" ++ "/" ++ "btc" = "eth/btc" from by decide]
            at hv)))⟩
    · rcases extractGroup_ok_mem d3 "btc" _ ps3 he3 "bnt" (by decide) with
        ⟨v, hv⟩
      exact ⟨v, List.mem_append_right _ (List.mem_append_right _
        (List.mem_append_left _
          (by rwa [show "bnt" ++ "/" ++ "btc" = "bnt/btc" from by decide]
            at hv)))⟩

/-- A demonstration external source answering every identifier in every
quote currency with price 1. -/
def demoSource : String → String → Except String CoinGeckoResponse :=
  fun _ _ => Except.ok
    [("bitcoin", [("usd", 1), ("eur", 1), ("btc", 1)]),
     ("ethereum", [("usd", 1), ("eur", 1), ("btc", 1)]),
     ("solana", [("usd", 1), ("eur", 1), ("btc", 1)]),
     ("ethereum-classic", [("usd", 1), ("eur", 1), ("btc", 1)]),
     ("polkadot", [("usd", 1), ("eur", 1), ("btc", 1)]),
     ("cardano", [("usd", 1), ("eur", 1), ("btc", 1)]),
     ("bancor", [("usd", 1), ("eur", 1), ("btc", 1)])]

/-- The mapping `fetch_prices` produces from `demoSource`. -/
def demoPrices : List (String × ℚ) :=
  [("btc/usd", 1), ("eth/usd", 1), ("sol/usd", 1), ("dot/usd", 1),
   ("ada/usd", 1), ("etc/eur", 1), ("eth/btc", 1), ("bnt/btc", 1)]

/-- Witness for C6: against `demoSource` the fetch succeeds and issued
exactly the three per-quote requests of the catalog. -/
theorem fetch_prices_partition_and_coverage_witness :
    (fetchGroups demoSource (quoteGroups PAIRS)).2 = fetchRequests :=
  (fetch_prices_partition_and_coverage demoSource demoPrices
    (by decide)).2.1

/-- Witness for C3: an external source that fails every request makes
`fetch_prices` raise and the fetch-and-store cycle leave the (empty)
table empty. -/
theorem fetch_group_failure_aborts_witness :
    (fetch_and_store (mkState []) (fun _ _ => Except.error "timeout")
        0 none).1 = [] ∧
    (fetch_and_store (mkState []) (fun _ _ => Except.error "timeout")
        0 none).2.rows = [] :=
  ⟨(fetch_group_failure_aborts (mkState [])
      (fun _ _ => Except.error "timeout") 0 none
      "bitcoin,ethereum,solana,polkadot,cardano" "usd" "timeout"
      (by decide) rfl).2.1,
   (fetch_group_failure_aborts (mkState [])
      (fun _ _ => Except.error "timeout") 0 none
      "bitcoin,ethereum,solana,polkadot,cardano" "usd" "timeout"
      (by decide) rfl).2.2⟩

/-- Membership in the qualifying set is exactly having at least two
samples in the trailing window. -/
lemma mem_qualifying_iff (rows : List Row) (now : Int) (p : String) :
    p ∈ qualifying rows now ↔
      1 < (samplesOf (windowRows rows now) p).length := by
  unfold qualifying
  rw [List.mem_filter]
  constructor
  · intro h
    exact of_decide_eq_true h.2
  · intro h
    refine ⟨?_, decide_eq_true h⟩
    unfold pairsOf
    rw [List.mem_dedup]
    unfold samplesOf at h
    rw [List.length_map] at h
    have hpos :
        0 < ((windowRows rows now).filter fun r => r.pair == p).length := by
      omega
    obtain ⟨r, hr⟩ := List.exists_mem_of_length_pos hpos
    have hr' := List.mem_filter.mp hr
    rw [List.mem_map]
    exact ⟨r, hr'.1, by simpa using hr'.2⟩

/-- A defined rank means the pair qualifies and the rank is one plus the
number of qualifying pairs of strictly larger standard deviation. -/
lemma rank_some (rows : List Row) (now : Int) (p : String) (r : Nat)
    (h : volatility_rank_query rows now p = some r) :
    p ∈ qualifying rows now ∧
    r = 1 + (qualifying rows now).countP
      (fun q => stddevSq rows now q > stddevSq rows now p) := by
  unfold volatility_rank_query at h
  by_cases hb : (qualifying rows now).contains p = true
  · rw [if_pos hb] at h
    refine ⟨by simpa using hb, ?_⟩
    injection h with h'
    exact h'.symm
  · rw [if_neg hb] at h
    cases h

/-- The rank is absent exactly when the pair has fewer than two samples
in the trailing window. -/
lemma rank_none_iff (rows : List Row) (now : Int) (p : String) :
    volatility_rank_query rows now p = none ↔
      (samplesOf (windowRows rows now) p).length < 2 := by
  unfold volatility_rank_query
  by_cases hb : (qualifying rows now).contains p = true
  · rw [if_pos hb]
    have hmem : p ∈ qualifying rows now := by simpa using hb
    have hlen := (mem_qualifying_iff rows now p).mp hmem
    constructor
    · intro h
      exact Option.noConfusion h
    · intro h
      omega
  · rw [if_neg hb]
    have hmem : p ∉ qualifying rows now := fun hm => hb (by simpa using hm)
    have hlen : ¬ 1 < (samplesOf (windowRows rows now) p).length :=
      fun hl => hmem ((mem_qualifying_iff rows now p).mpr hl)
    constructor
    · intro _
      omega
    · intro _
      rfl

/-- Counting with a pointwise-stronger predicate counts no more. -/
lemma countP_le_of_imp {α : Type} (l : List α) (P Q : α → Bool)
    (h : ∀ x ∈ l, P x = true → Q x = true) :
    l.countP P ≤ l.countP Q := by
  induction l with
  | nil => simp
  | cons x xs ih =>
      rw [List.countP_cons, List.countP_cons]
      have hxs := ih fun y hy => h y (List.mem_cons_of_mem x hy)
      by_cases hx : P x = true
      · rw [hx, h x (List.mem_cons_self x xs) hx]
        omega
      · rw [eq_false_of_ne_true hx]
        cases hq : Q x <;> simp <;> omega

/-- A member counted by `Q` but not by `P`, with `P` pointwise stronger,
makes the `P`-count strictly smaller. -/
lemma countP_lt_of_witness {α : Type} (P Q : α → Bool) :
    ∀ (l : List α) (a : α), a ∈ l →
    (∀ x ∈ l, P x = true → Q x = true) →
    Q a = true → P a = false → l.countP P < l.countP Q := by
  intro l
  induction l with
  | nil =>
      intro a ha
      cases ha
  | cons x xs ih =>
      intro a ha hPQ haQ haP
      rw [List.countP_cons, List.countP_cons]
      have hle := countP_le_of_imp xs P Q
        fun y hy => hPQ y (List.mem_cons_of_mem x hy)
      rcases List.mem_cons.mp ha with rfl | ha'
      · rw [haP, haQ]
        simp only [Bool.false_eq_true, if_false, if_true]
        omega
      · have hlt := ih a ha' (fun y hy => hPQ y (List.mem_cons_of_mem x hy))
          haQ haP
        by_cases hx : P x = true
        · rw [hx, hPQ x (List.mem_cons_self x xs) hx]
          omega
        · rw [eq_false_of_ne_true hx]
          cases hq : Q x <;> simp <;> omega

/-- Pointwise-equal predicates count equally. -/
lemma countP_congr_list {α : Type} (l : List α) (P Q : α → Bool)
    (h : ∀ x ∈ l, P x = Q x) : l.countP P = l.countP Q := by
  induction l with
  | nil => rfl
  | cons x xs ih =>
      rw [List.countP_cons, List.countP_cons,
        ih (fun y hy => h y (List.mem_cons_of_mem x hy)),
        h x (List.mem_cons_self x xs)]

/-- With at least two samples, the sample variance is nonnegative. -/
lemma sampleVar_nonneg (xs : List ℚ) (h : 1 < xs.length) :
    0 ≤ sampleVar xs := by
  unfold sampleVar
  apply div_nonneg
  · apply List.sum_nonneg
    intro x hx
    rcases List.mem_map.mp hx with ⟨y, _, rfl⟩
    exact sq_nonneg _
  · have h2 : (2 : ℚ) ≤ (xs.length : ℚ) := by exact_mod_cast h
    linarith

/-- C2: for every pair, `get_volatility_rank` returns no rank (absent,
not zero) exactly when the pair has fewer than two samples in the
trailing 24-hour window, and a 1-based rank otherwise; among ranked
pairs, strictly higher standard deviation over the window gives a
strictly lower rank number, and equal standard deviation gives equal
rank — `RANK()` semantics, ties sharing a rank and the next distinct
value skipping accordingly, which the `1 + count-strictly-greater` form
of the embedded query expresses. Standard deviation is `Real.sqrt` of
the sample variance `stddevSq`. -/
theorem volatility_rank_semantics
    (db : List Row) (now : Int) (p0 p1 p2 : String) (r1 r2 : Nat)
    (h1 : volatility_rank_query db now p1 = some r1)
    (h2 : volatility_rank_query db now p2 = some r2) :
    (volatility_rank_query db now p0 = none ↔
      (samplesOf (windowRows db now) p0).length < 2) ∧
    (get_volatility_rank (mkState db) now p0).1 =
      volatility_rank_query db now p0 ∧
    (Real.sqrt (stddevSq db now p2) < Real.sqrt (stddevSq db now p1) →
      r1 < r2) ∧
    (Real.sqrt (stddevSq db now p1) = Real.sqrt (stddevSq db now p2) →
      r1 = r2) := by
  obtain ⟨hq1, hr1⟩ := rank_some db now p1 r1 h1
  obtain ⟨hq2, hr2⟩ := rank_some db now p2 r2 h2
  have hlen1 := (mem_qualifying_iff db now p1).mp hq1
  have hlen2 := (mem_qualifying_iff db now p2).mp hq2
  have hnn1 : (0 : ℝ) ≤ (stddevSq db now p1 : ℝ) := by
    exact_mod_cast sampleVar_nonneg _ hlen1
  have hnn2 : (0 : ℝ) ≤ (stddevSq db now p2 : ℝ) := by
    exact_mod_cast sampleVar_nonneg _ hlen2
  refine ⟨rank_none_iff db now p0,
    by simp [get_volatility_rank, mkState, alookup], ?_, ?_⟩
  · intro hsq
    have hvar : stddevSq db now p2 < stddevSq db now p1 := by
      by_contra hle
      push_neg at hle
      have hle' : (stddevSq db now p1 : ℝ) ≤ (stddevSq db now p2 : ℝ) := by
        exact_mod_cast hle
      exact absurd hsq (not_lt.mpr (Real.sqrt_le_sqrt hle'))
    subst hr1
    subst hr2
    have hcnt := countP_lt_of_witness
      (fun q => stddevSq db now q > stddevSq db now p1)
      (fun q => stddevSq db now q > stddevSq db now p2)
      (qualifying db now) p1 hq1
      (fun x _ hx =>
        decide_eq_true (lt_trans hvar (of_decide_eq_true hx)))
      (decide_eq_true hvar)
      (decide_eq_false (lt_irrefl _))
    omega
  · intro hsq
    have hvar : stddevSq db now p1 = stddevSq db now p2 := by
      have := (Real.sqrt_inj hnn1 hnn2).mp hsq
      exact_mod_cast this
    subst hr1
    subst hr2
    rw [countP_congr_list (qualifying db now) _ _
      (fun x _ => by rw [hvar])]

/-- Rows for the rank witness: pair `a` has two samples with variance
50, pair `b` two samples with variance 2, pair `c` only one sample. -/
def rankDemoRows : List Row :=
  [⟨"a", 0, 0⟩, ⟨"a", 10, 0⟩, ⟨"b", 0, 0⟩, ⟨"b", 2, 0⟩, ⟨"c", 5, 0⟩]

/-- Witness for C2: over `rankDemoRows`, pair `c` (one sample) has no
rank, and pair `a` (stddev √50) ranks strictly above pair `b`
(stddev √2): their ranks are 1 and 2. -/
theorem volatility_rank_semantics_witness :
    volatility_rank_query rankDemoRows 0 "c" = none ∧ (1 : Nat) < 2 := by
  have hsa : samplesOf (windowRows rankDemoRows 0) "a" = [0, 10] := by decide
  have hsb : samplesOf (windowRows rankDemoRows 0) "b" = [0, 2] := by decide
  have hva : stddevSq rankDemoRows 0 "a" = 50 := by
    rw [stddevSq, hsa]
    norm_num [sampleVar]
  have hvb : stddevSq rankDemoRows 0 "b" = 2 := by
    rw [stddevSq, hsb]
    norm_num [sampleVar]
  have hqual : qualifying rankDemoRows 0 = ["a", "b"] := by decide
  have hpa : decide (stddevSq rankDemoRows 0 "a" >
      stddevSq rankDemoRows 0 "a") = false :=
    decide_eq_false (lt_irrefl _)
  have hpb : decide (stddevSq rankDemoRows 0 "b" >
      stddevSq rankDemoRows 0 "a") = false :=
    decide_eq_false (by rw [hva, hvb]; norm_num)
  have h1 : volatility_rank_query rankDemoRows 0 "a" = some 1 := by
    rw [volatility_rank_query, if_pos (by rw [hqual]; rfl), hqual]
    rw [List.countP_cons, List.countP_cons, List.countP_nil]
    rw [hpa, hpb]
    rfl
  have hpa2 : decide (stddevSq rankDemoRows 0 "a" >
      stddevSq rankDemoRows 0 "b") = true :=
    decide_eq_true (by rw [hva, hvb]; norm_num)
  have hpb2 : decide (stddevSq rankDemoRows 0 "b" >
      stddevSq rankDemoRows 0 "b") = false :=
    decide_eq_false (lt_irrefl _)
  have h2 : volatility_rank_query rankDemoRows 0 "b" = some 2 := by
    rw [volatility_rank_query, if_pos (by rw [hqual]; rfl), hqual]
    rw [List.countP_cons, List.countP_cons, List.countP_nil]
    rw [hpa2, hpb2]
    rfl
  have hthm := volatility_rank_semantics rankDemoRows 0 "c" "a" "b" 1 2 h1 h2
  refine ⟨hthm.1.mpr (by decide), hthm.2.2.1 ?_⟩
  rw [hva, hvb]
  apply Real.sqrt_lt_sqrt <;> norm_num

/-- Witness for C8: `"xyz/usd"` is not in the catalog; both endpoints
return 404 with the service state (query and call counters included)
untouched. -/
theorem routes_unknown_pair_404_witness :
    route_get_current_price (mkState []) (fun _ _ => Except.error "down")
        "xyz" "usd" = (Except.error 404, mkState []) ∧
    route_get_price_history (mkState []) 0 "xyz" "usd" =
      (Except.error 404, mkState []) :=
  ⟨(routes_unknown_pair_404 (mkState []) (fun _ _ => Except.error "down")
      0 "xyz" "usd" (by decide)).1,
   (routes_unknown_pair_404 (mkState []) (fun _ _ => Except.error "down")
      0 "xyz" "usd" (by decide)).2⟩

end CryptoTracker
